import Mathlib

/-!
Shallow embedding of the pure scheduling core of the AI-Recruiter repository
(file src/agents/schedule_agent.py, tool find_available_slots): the time
parser, the event extractor, the gap finder and the 30-minute slot
generator.

Times are modelled as minutes. The ambient "today" date obtained from
datetime.now().date() is an explicit parameter d, and an absolute datetime
is d * 1440 + minutes-since-midnight. Strings are processed as lists of
characters; the regular expressions of the source are implemented directly
as deterministic matchers that follow the Python re semantics (leftmost
search, greedy quantifiers) on the concrete patterns of the source.
The inputs relevant here are ASCII apart from the bullet character, so
upper-casing is modelled on ASCII letters.
-/

/-- Result of a Python computation: a normal return value, or an uncaught
exception (such as the ValueError raised by datetime.time.replace when a
field is out of range). -/
inductive PyResult (α : Type) where
  | ok (a : α)
  | exn
  deriving DecidableEq

/-- Python whitespace on ASCII, as matched by str.strip and the regex
class backslash-s. -/
def pySpace (c : Char) : Bool :=
  c = ' ' || c = '\t' || c = '\n' || c = '\r' || c = '\x0b' || c = '\x0c'

/-- Decimal digit test, regex class backslash-d on ASCII. -/
def isDig (c : Char) : Bool := '0' ≤ c && c ≤ '9'

/-- Numeric value of a decimal digit character. -/
def digVal (c : Char) : Nat := c.toNat - 48

/-- ASCII upper-casing, modelling str.upper on the inputs of interest. -/
def upChar (c : Char) : Char :=
  if 'a' ≤ c && c ≤ 'z' then Char.ofNat (c.toNat - 32) else c

/-- Python str.strip on a character list: drop whitespace from both ends. -/
def pyStripL (l : List Char) : List Char :=
  ((l.dropWhile pySpace).reverse.dropWhile pySpace).reverse

/-- Python text.split on a single newline character: accumulator-based
splitter; empty pieces are kept, and the empty text yields one empty line. -/
def splitLinesAux : List Char → List Char → List (List Char)
  | [], acc => [acc.reverse]
  | '\n' :: t, acc => acc.reverse :: splitLinesAux t []
  | c :: t, acc => splitLinesAux t (c :: acc)

/-- Does pat occur at the head of l (Python str.startswith for a pattern
given as a character list). -/
def startsList : List Char → List Char → Bool
  | [], _ => true
  | _ :: _, [] => false
  | a :: as, b :: bs => a = b && startsList as bs

/-- Python substring containment test (the "in" operator on str):
pat occurs somewhere in l. -/
def containsSub (pat : List Char) : List Char → Bool
  | [] => startsList pat []
  | c :: t => startsList pat (c :: t) || containsSub pat t

/-- Matcher for the regex piece (backslash-d){1,2} followed by a colon:
greedy, two digits preferred, exactly as the Python engine backtracks on
the concrete patterns of the source. Returns the hour value, the digit
characters consumed, and the rest after the colon. -/
def matchHour : List Char → Option (Nat × List Char × List Char)
  | a :: b :: r =>
    if isDig a then
      if isDig b then
        match r with
        | ':' :: r2 => some (digVal a * 10 + digVal b, [a, b], r2)
        | _ => none
      else if b = ':' then some (digVal a, [a], r)
      else none
    else none
  | _ => none

/-- Matcher for one side of the extractor regex of extract_events:
(backslash-d){1,2}:(backslash-d){2}(backslash-s)*(AM|PM)? with
case-insensitive meridiem. Returns the captured characters and the rest. -/
def matchTok (l : List Char) : Option (List Char × List Char) :=
  match matchHour l with
  | none => none
  | some (_, hd, r1) =>
    match r1 with
    | m1 :: m2 :: r2 =>
      if isDig m1 && isDig m2 then
        let sp := r2.takeWhile pySpace
        let r3 := r2.dropWhile pySpace
        match r3 with
        | x :: y :: r4 =>
          if (upChar x = 'A' || upChar x = 'P') && upChar y = 'M' then
            some (hd ++ ':' :: m1 :: m2 :: (sp ++ [x, y]), r4)
          else some (hd ++ ':' :: m1 :: m2 :: sp, r3)
        | _ => some (hd ++ ':' :: m1 :: m2 :: sp, r3)
      else none
    | _ => none

/-- Match of the full time-range pattern of extract_events at the current
position: token, optional spaces, a dash, optional spaces, token. Returns
the two captured groups. -/
def matchRangeAt (l : List Char) : Option (List Char × List Char) :=
  match matchTok l with
  | none => none
  | some (t1, r1) =>
    match r1.dropWhile pySpace with
    | '-' :: r3 =>
      match matchTok (r3.dropWhile pySpace) with
      | none => none
      | some (t2, _) => some (t1, t2)
    | _ => none

/-- Python re.search of the time-range pattern over a line: try each start
position from the left. -/
def searchPat : List Char → Option (List Char × List Char)
  | [] => none
  | c :: t =>
    match matchRangeAt (c :: t) with
    | some g => some g
    | none => searchPat t

/-- Matcher for the strptime directive percent-I (hour 1 to 12, optional
leading zero), following the alternation of the CPython strptime regex. -/
def matchI : List Char → Option (Nat × List Char)
  | '1' :: c :: r =>
    if '0' ≤ c && c ≤ '2' then some (10 + digVal c, r) else some (1, c :: r)
  | '0' :: c :: r =>
    if '1' ≤ c && c ≤ '9' then some (digVal c, r) else none
  | c :: r => if '1' ≤ c && c ≤ '9' then some (digVal c, r) else none
  | [] => none

/-- Matcher for the strptime directive percent-H (hour 0 to 23, one or two
digits). -/
def matchH : List Char → Option (Nat × List Char)
  | a :: b :: r =>
    if a = '2' && ('0' ≤ b && b ≤ '3') then some (20 + digVal b, r)
    else if (a = '0' || a = '1') && isDig b then some (digVal a * 10 + digVal b, r)
    else if isDig a then some (digVal a, b :: r)
    else none
  | [a] => if isDig a then some (digVal a, []) else none
  | [] => none

/-- Matcher for the strptime directive percent-M (minute 0 to 59, one or
two digits). -/
def matchM : List Char → Option (Nat × List Char)
  | a :: b :: r =>
    if ('0' ≤ a && a ≤ '5') && isDig b then some (digVal a * 10 + digVal b, r)
    else if isDig a then some (digVal a, b :: r)
    else none
  | [a] => if isDig a then some (digVal a, []) else none
  | [] => none

/-- Matcher for the strptime directive percent-p (meridiem, case
insensitive); true means PM. -/
def matchP : List Char → Option (Bool × List Char)
  | x :: y :: r =>
    if upChar x = 'A' && upChar y = 'M' then some (false, r)
    else if upChar x = 'P' && upChar y = 'M' then some (true, r)
    else none
  | _ => none

/-- Conversion of a 12-hour value and meridiem to a 24-hour value, as done
by CPython strptime: PM adds 12 unless the hour is 12, AM maps 12 to 0. -/
def applyMer (pm : Bool) (h12 : Nat) : Nat :=
  if pm then (if h12 ≠ 12 then h12 + 12 else h12)
  else (if h12 = 12 then 0 else h12)

/-- Full match of the format "%I:%M %p" (hour, colon, minute, whitespace,
meridiem), returning minutes since midnight. -/
def tryFmt1 (l : List Char) : Option Nat :=
  match matchI l with
  | none => none
  | some (h, r1) =>
    match r1 with
    | ':' :: r2 =>
      match matchM r2 with
      | none => none
      | some (m, r3) =>
        let sp := r3.takeWhile pySpace
        if sp = [] then none
        else
          match matchP (r3.dropWhile pySpace) with
          | some (pm, r5) => if r5 = [] then some (applyMer pm h * 60 + m) else none
          | none => none
    | _ => none

/-- Full match of the format "%H:%M", returning minutes since midnight. -/
def tryFmt2 (l : List Char) : Option Nat :=
  match matchH l with
  | none => none
  | some (h, r1) =>
    match r1 with
    | ':' :: r2 =>
      match matchM r2 with
      | none => none
      | some (m, r3) => if r3 = [] then some (h * 60 + m) else none
    | _ => none

/-- Full match of the format "%I:%M%p" (no space before the meridiem),
returning minutes since midnight. -/
def tryFmt3 (l : List Char) : Option Nat :=
  match matchI l with
  | none => none
  | some (h, r1) =>
    match r1 with
    | ':' :: r2 =>
      match matchM r2 with
      | none => none
      | some (m, r3) =>
        match matchP r3 with
        | some (pm, r4) => if r4 = [] then some (applyMer pm h * 60 + m) else none
        | none => none
    | _ => none

/-- Search for the fallback regex of parse_time, (backslash-d){1,2} colon
(backslash-d){2}, over the raw token; returns hour and minute digits. -/
def searchHM : List Char → Option (Nat × Nat)
  | [] => none
  | c :: t =>
    match matchHour (c :: t) with
    | some (h, _, r) =>
      (match r with
       | m1 :: m2 :: _ =>
         if isDig m1 && isDig m2 then some (h, digVal m1 * 10 + digVal m2)
         else searchHM t
       | _ => searchHM t)
    | none => searchHM t

/-- Meridiem adjustment of the numeric-extraction fallback of parse_time:
checks the substrings PM and AM of the upper-cased raw token; PM adds 12
when the hour is not exactly 12, AM maps hour 12 to 0. -/
def fallbackAdjust (t : List Char) (h : Nat) : Nat :=
  let u := t.map upChar
  if containsSub ['P', 'M'] u && h ≠ 12 then h + 12
  else if containsSub ['A', 'M'] u && h = 12 then 0
  else h

/-- Time parser of the source (parse_time) at the time-of-day level:
try the three strptime formats on the stripped token, then the numeric
fallback on the raw token. The fallback builds the time with
datetime.time.replace, which raises ValueError when the adjusted hour
exceeds 23 or the minute exceeds 59; that raise is the exn result.
Returns ok none when nothing matches (the Python function returns None). -/
def parse_time_core (t : List Char) : PyResult (Option Nat) :=
  let s := pyStripL t
  match tryFmt1 s with
  | some tod => .ok (some tod)
  | none =>
    match tryFmt2 s with
    | some tod => .ok (some tod)
    | none =>
      match tryFmt3 s with
      | some tod => .ok (some tod)
      | none =>
        match searchHM t with
        | some (h0, m) =>
          let h := fallbackAdjust t h0
          if h ≤ 23 && m ≤ 59 then .ok (some (h * 60 + m)) else .exn
        | none => .ok none

/-- Time parser anchored to the ambient date d, as the source combines the
parsed time of day with datetime.now().date(). -/
def parse_time (d : Int) (t : List Char) : PyResult (Option Int) :=
  match parse_time_core t with
  | .ok (some tod) => .ok (some (d * 1440 + tod))
  | .ok none => .ok none
  | .exn => .exn

/-- Sentinel substring tested by extract_events. -/
def sentinel : List Char := "No events found".data

/-- Head test for the bullet character, Python line.startswith applied to
the bullet. -/
def bulletHead : List Char → Bool
  | '•' :: _ => true
  | _ => false

/-- Skip condition of extract_events on the stripped line: empty line,
line starting with a bullet, or line containing the sentinel substring. -/
def skipLine (l : List Char) : Bool :=
  l.isEmpty || bulletHead l || containsSub sentinel l

/-- Processing of one line by extract_events, at the time-of-day level:
strip, test the skip condition, search the time-range pattern, parse both
sides (each may raise), drop the line if either side returns None, and
normalize an end not after the start by adding one day (1440 minutes). -/
def processLine (line : List Char) : PyResult (Option (Nat × Nat)) :=
  let l := pyStripL line
  if skipLine l then .ok none
  else
    match searchPat l with
    | none => .ok none
    | some (t1, t2) =>
      match parse_time_core t1 with
      | .exn => .exn
      | .ok os =>
        match parse_time_core t2 with
        | .exn => .exn
        | .ok oe =>
          match os, oe with
          | some s, some e => .ok (some (s, if e ≤ s then e + 1440 else e))
          | _, _ => .ok none

/-- Fold of processLine over the lines of the input, in order; the first
line that raises aborts the whole extraction, as the Python exception
propagates. -/
def extractLines : List (List Char) → PyResult (List (Nat × Nat))
  | [] => .ok []
  | ln :: rest =>
    match processLine ln with
    | .exn => .exn
    | .ok none => extractLines rest
    | .ok (some iv) =>
      match extractLines rest with
      | .exn => .exn
      | .ok l => .ok (iv :: l)

/-- Anchoring of a time-of-day interval to the ambient date d. -/
def shiftIv (d : Int) (iv : Nat × Nat) : Int × Int :=
  (d * 1440 + iv.1, d * 1440 + iv.2)

/-- Stable insertion into a list sorted by interval start, modelling the
stable Python sorted with key start. -/
def insertByStart (x : Int × Int) : List (Int × Int) → List (Int × Int)
  | [] => [x]
  | y :: ys => if x.1 ≤ y.1 then x :: y :: ys else y :: insertByStart x ys

/-- Stable sort by interval start. -/
def sortByStart : List (Int × Int) → List (Int × Int)
  | [] => []
  | x :: xs => insertByStart x (sortByStart xs)

/-- Event extractor of the source (extract_events): split into lines,
process each line, anchor to the ambient date and sort by start time. -/
def extract_events (d : Int) (text : String) : PyResult (List (Int × Int)) :=
  match extractLines (splitLinesAux text.data []) with
  | .exn => .exn
  | .ok l => .ok (sortByStart (l.map (shiftIv d)))

/-- Gaps between consecutive events, in list order: one gap per adjacent
pair whose next start is strictly after the current end. -/
def betweenGaps : List (Int × Int) → List (Int × Int)
  | [] => []
  | [_] => []
  | iv :: iv2 :: rest =>
    (if iv2.1 > iv.2 then [(iv.2, iv2.1)] else []) ++ betweenGaps (iv2 :: rest)

/-- End of the last event of a nonempty list (events[-1][1] in the
source). -/
def lastEnd : (Int × Int) → List (Int × Int) → Int
  | iv, [] => iv.2
  | _, iv2 :: rest => lastEnd iv2 rest

/-- Gap finder of the source (find_gaps). The work window bounds are the
hour values work_start and work_end combined with the ambient date d;
the source builds them with datetime.time.replace, valid for hours 0 to 23
(its callers use 9 and 18). With no events the whole window is the single
gap, with no further check; otherwise a leading, between, and trailing gap
are emitted, each only when of positive duration. -/
def find_gaps (d : Int) (events : List (Int × Int)) (work_start work_end : Int) :
    List (Int × Int) :=
  let wst : Int := d * 1440 + work_start * 60
  let wet : Int := d * 1440 + work_end * 60
  match events with
  | [] => [(wst, wet)]
  | iv :: rest =>
    (if iv.1 > wst then [(wst, iv.1)] else []) ++
    betweenGaps (iv :: rest) ++
    (if lastEnd iv rest < wet then [(lastEnd iv rest, wet)] else [])

/-- Two-digit zero padding, as the strftime directives percent-I and
percent-M produce. -/
def pad2 (n : Nat) : String := if n < 10 then "0" ++ toString n else toString n

/-- Formatting of an absolute minute value with strftime "%I:%M %p":
zero-padded 12-hour clock, minutes, and meridiem. -/
def fmtTime (t : Int) : String :=
  let tod := (t.emod 1440).toNat
  let h24 := tod / 60
  let m := tod % 60
  let h12 := if h24 % 12 = 0 then 12 else h24 % 12
  pad2 h12 ++ ":" ++ pad2 m ++ " " ++ (if h24 < 12 then "AM" else "PM")

/-- Slot strings generated inside one gap: while the 30-minute slot still
fits, emit it and advance by 15 minutes. The fuel argument bounds the
recursion; the loop advances by 15 minutes per step and stops as soon as
t + 30 exceeds the gap end, so gapEnd - t + 1 steps always suffice and the
guard, never the fuel, ends the loop. -/
def slotsFrom (gapEnd : Int) : Nat → Int → List String
  | 0, _ => []
  | fuel + 1, t =>
    if t + 30 ≤ gapEnd then
      (fmtTime t ++ " - " ++ fmtTime (t + 30)) :: slotsFrom gapEnd fuel (t + 15)
    else []

/-- Slot generator of the source (find_30_min_slots): slice every gap into
30-minute slots at a 15-minute stride and keep the earliest three. -/
def find_30_min_slots (gaps : List (Int × Int)) : List String :=
  ((gaps.map (fun g => slotsFrom g.2 ((g.2 - g.1).toNat + 1) g.1)).flatten).take 3

/-- Numbered listing of the slot strings, one per line, starting at 1. -/
def numberSlots : Nat → List String → String
  | _, [] => ""
  | i, s :: r => toString i ++ ". " ++ s ++ "\n" ++ numberSlots (i + 1) r

/-- Result message built by find_available_slots from the event count, the
gap count and the slot strings. -/
def resultString (nev ng : Nat) (slots : List String) : String :=
  "Parsed " ++ toString nev ++ " events from calendar.\n" ++
  "Found " ++ toString ng ++ " time gaps.\n" ++
  "Available 30-minute slots (earliest 3):\n" ++
  (match slots with
   | [] => "No available 30-minute slots found during work hours (9 AM - 6 PM).\n"
   | _ :: _ => numberSlots 1 slots)

/-- Whole pipeline of the source tool find_available_slots on the ambient
date d: extract events, find gaps in the default 9-to-18 window, slice
slots, and build the result message. An uncaught parser exception aborts
the tool. -/
def find_available_slots (d : Int) (text : String) : PyResult String :=
  match extract_events d text with
  | .exn => .exn
  | .ok events =>
    let gaps := find_gaps d events 9 18
    let slots := find_30_min_slots gaps
    .ok (resultString events.length gaps.length slots)

/-- Sum of the signed durations of a list of intervals. -/
def sumDur : List (Int × Int) → Int
  | [] => 0
  | iv :: rest => (iv.2 - iv.1) + sumDur rest

/-- Sorted, pairwise separated and window-contained interval lists: each
interval starts no earlier than the running lower bound and the final end
is at most the upper bound. -/
def chainWithin (lo hi : Int) : List (Int × Int) → Bool
  | [] => lo ≤ hi
  | iv :: rest => (lo ≤ iv.1) && chainWithin iv.2 hi rest

/-- Shift of an absolute interval by a constant number of minutes; used to
relate runs of the pipeline anchored to different dates. -/
def shiftG (c : Int) (iv : Int × Int) : Int × Int := (c + iv.1, c + iv.2)

theorem startsList_exists : ∀ (p l : List Char), startsList p l = true → ∃ v, l = p ++ v
  | [], l, _ => ⟨l, rfl⟩
  | a :: as, [], h => by simp [startsList] at h
  | _ :: as, b :: bs, h => by
    simp only [startsList, Bool.and_eq_true, decide_eq_true_eq] at h
    obtain ⟨rfl, h2⟩ := h
    obtain ⟨v, rfl⟩ := startsList_exists as bs h2
    exact ⟨v, rfl⟩

theorem startsList_self_append : ∀ (p v : List Char), startsList p (p ++ v) = true
  | [], _ => rfl
  | a :: as, v => by simp [startsList, startsList_self_append as v]

theorem containsSub_of_starts (p l : List Char) (h : startsList p l = true) :
    containsSub p l = true := by
  cases l with
  | nil => exact h
  | cons c t => simp [containsSub, h]

theorem containsSub_cons_of (p l : List Char) (c : Char) (h : containsSub p l = true) :
    containsSub p (c :: l) = true := by
  simp [containsSub, h]

theorem containsSub_exists : ∀ (p l : List Char), containsSub p l = true → ∃ u v, l = u ++ p ++ v
  | p, [], h => by
    obtain ⟨v, hv⟩ := startsList_exists p [] h
    exact ⟨[], v, by simpa using hv⟩
  | p, c :: t, h => by
    simp only [containsSub, Bool.or_eq_true] at h
    rcases h with h1 | h2
    · obtain ⟨v, hv⟩ := startsList_exists p (c :: t) h1
      exact ⟨[], v, by simpa using hv⟩
    · obtain ⟨u, v, hv⟩ := containsSub_exists p t h2
      exact ⟨c :: u, v, by simp [hv]⟩

theorem containsSub_of_parts (p u v : List Char) : containsSub p (u ++ p ++ v) = true := by
  induction u with
  | nil => simpa using containsSub_of_starts p (p ++ v) (startsList_self_append p v)
  | cons c u ih => simpa using containsSub_cons_of p (u ++ p ++ v) c ih

theorem containsSub_dropWhile_of_head (c : Char) (p l : List Char) (hc : pySpace c = false)
    (h : containsSub (c :: p) l = true) :
    containsSub (c :: p) (l.dropWhile pySpace) = true := by
  induction l with
  | nil => simpa using h
  | cons a t ih =>
    rw [List.dropWhile_cons]
    by_cases ha : pySpace a = true
    · simp only [ha, if_true]
      apply ih
      simp only [containsSub, Bool.or_eq_true] at h
      rcases h with h1 | h2
      · exfalso
        simp only [startsList, Bool.and_eq_true, decide_eq_true_eq] at h1
        obtain ⟨rfl, -⟩ := h1
        rw [hc] at ha
        exact Bool.false_ne_true ha
      · exact h2
    · simp only [ha]
      simpa using h

theorem containsSub_pyStripL (l : List Char) (h : containsSub sentinel l = true) :
    containsSub sentinel (pyStripL l) = true := by
  have hsent : sentinel = 'N' :: "o events found".data := by decide
  have hrev : sentinel.reverse = 'd' :: "nuof stneve oN".data := by decide
  unfold pyStripL
  have h1 : containsSub sentinel (l.dropWhile pySpace) = true := by
    rw [hsent] at h ⊢
    exact containsSub_dropWhile_of_head 'N' _ _ (by decide) h
  obtain ⟨u, v, huv⟩ := containsSub_exists _ _ h1
  have h2 : containsSub sentinel.reverse (l.dropWhile pySpace).reverse = true := by
    rw [huv]
    simpa [List.reverse_append, List.append_assoc] using
      containsSub_of_parts sentinel.reverse v.reverse u.reverse
  have h3 : containsSub sentinel.reverse ((l.dropWhile pySpace).reverse.dropWhile pySpace)
      = true := by
    rw [hrev] at h2 ⊢
    exact containsSub_dropWhile_of_head 'd' _ _ (by decide) h2
  obtain ⟨u2, v2, huv2⟩ := containsSub_exists _ _ h3
  rw [huv2]
  simpa [List.reverse_append, List.reverse_reverse, List.append_assoc] using
    containsSub_of_parts sentinel v2.reverse u2.reverse

theorem mem_insertByStart (y x : Int × Int) :
    ∀ (l : List (Int × Int)), y ∈ insertByStart x l ↔ y = x ∨ y ∈ l
  | [] => by simp [insertByStart]
  | z :: zs => by
    simp only [insertByStart]
    by_cases hle : x.1 ≤ z.1
    · simp [hle]
    · simp only [hle, if_false, List.mem_cons, mem_insertByStart y x zs]
      tauto

theorem mem_sortByStart (y : Int × Int) :
    ∀ (l : List (Int × Int)), y ∈ sortByStart l ↔ y ∈ l
  | [] => Iff.rfl
  | z :: zs => by
    simp only [sortByStart, mem_insertByStart, mem_sortByStart y zs, List.mem_cons]

theorem extractLines_mem :
    ∀ (lines : List (List Char)) (l : List (Nat × Nat)) (ln : List Char) (iv : Nat × Nat),
      extractLines lines = .ok l → ln ∈ lines → processLine ln = .ok (some iv) → iv ∈ l
  | [], _, _, _, _, hmem, _ => absurd hmem (List.not_mem_nil _)
  | hd :: rest, l, ln, iv, hok, hmem, hpl => by
    rcases List.mem_cons.mp hmem with rfl | hmem2
    · simp only [extractLines] at hok
      rw [hpl] at hok
      cases hrest : extractLines rest with
      | exn => rw [hrest] at hok; exact absurd hok (by simp)
      | ok l2 =>
        rw [hrest] at hok
        obtain rfl : iv :: l2 = l := by
          cases hok; rfl
        exact List.mem_cons_self _ _
    · simp only [extractLines] at hok
      cases hhd : processLine hd with
      | exn => rw [hhd] at hok; exact absurd hok (by simp)
      | ok o =>
        rw [hhd] at hok
        cases o with
        | none => exact extractLines_mem rest l ln iv hok hmem2 hpl
        | some iv2 =>
          cases hrest : extractLines rest with
          | exn => rw [hrest] at hok; exact absurd hok (by simp)
          | ok l2 =>
            rw [hrest] at hok
            obtain rfl : iv2 :: l2 = l := by cases hok; rfl
            exact List.mem_cons_of_mem _ (extractLines_mem rest l2 ln iv hrest hmem2 hpl)

theorem mem_betweenGaps :
    ∀ (l : List (Int × Int)) (g : Int × Int), g ∈ betweenGaps l →
      ∃ a, a ∈ l ∧ ∃ b, b ∈ l ∧ g = (a.2, b.1)
  | [], _, hg => absurd hg (List.not_mem_nil _)
  | [_], _, hg => absurd hg (List.not_mem_nil _)
  | iv :: iv2 :: rest, g, hg => by
    simp only [betweenGaps, List.mem_append] at hg
    rcases hg with hg1 | hg2
    · refine ⟨iv, List.mem_cons_self _ _, iv2, List.mem_cons_of_mem _ (List.mem_cons_self _ _), ?_⟩
      by_cases hlt : iv2.1 > iv.2
      · simp only [hlt, if_true, List.mem_singleton] at hg1
        exact hg1
      · simp [hlt] at hg1
    · obtain ⟨a, ha, b, hb, hab⟩ := mem_betweenGaps (iv2 :: rest) g hg2
      exact ⟨a, List.mem_cons_of_mem _ ha, b, List.mem_cons_of_mem _ hb, hab⟩

theorem lastEnd_mem : ∀ (iv : Int × Int) (rest : List (Int × Int)),
    ∃ b, b ∈ iv :: rest ∧ lastEnd iv rest = b.2
  | iv, [] => ⟨iv, List.mem_cons_self _ _, rfl⟩
  | _, iv2 :: rest => by
    obtain ⟨b, hb, he⟩ := lastEnd_mem iv2 rest
    exact ⟨b, List.mem_cons_of_mem _ hb, he⟩

theorem sumDur_append : ∀ (a b : List (Int × Int)), sumDur (a ++ b) = sumDur a + sumDur b
  | [], b => by simp [sumDur]
  | iv :: a, b => by
    show (iv.2 - iv.1) + sumDur (a ++ b) = ((iv.2 - iv.1) + sumDur a) + sumDur b
    rw [sumDur_append a b]
    ring

theorem sumDur_tail_gaps :
    ∀ (rest : List (Int × Int)) (iv : Int × Int) (hi : Int),
      chainWithin iv.2 hi rest = true →
      sumDur (betweenGaps (iv :: rest)) +
        sumDur (if lastEnd iv rest < hi then [(lastEnd iv rest, hi)] else []) +
        sumDur rest = hi - iv.2
  | [], iv, hi, hch => by
    have hle : iv.2 ≤ hi := by simpa [chainWithin] using hch
    simp only [betweenGaps, lastEnd, sumDur]
    by_cases hlt : iv.2 < hi
    · simp only [hlt, if_true, sumDur]
      omega
    · simp only [hlt, if_false, sumDur]
      omega
  | iv2 :: rest, iv, hi, hch => by
    have hch' : iv.2 ≤ iv2.1 ∧ chainWithin iv2.2 hi rest = true := by
      simpa [chainWithin, Bool.and_eq_true, decide_eq_true_eq] using hch
    have ih := sumDur_tail_gaps rest iv2 hi hch'.2
    have hlast : lastEnd iv (iv2 :: rest) = lastEnd iv2 rest := rfl
    simp only [betweenGaps, hlast, sumDur_append, sumDur] at ih ⊢
    by_cases hlt : iv2.1 > iv.2
    · simp only [hlt, if_true, sumDur] at ih ⊢
      omega
    · simp only [hlt, if_false, sumDur] at ih ⊢
      omega

theorem emod_day_shift (d t : Int) : (d * 1440 + t).emod 1440 = t.emod 1440 := by
  have h : d * 1440 + t = t + 1440 * d := by ring
  rw [h]
  exact Int.add_mul_emod_self_left t 1440 d

theorem fmtTime_shift (d t : Int) : fmtTime (d * 1440 + t) = fmtTime t := by
  simp only [fmtTime]
  rw [emod_day_shift]

theorem slotsFrom_shift : ∀ (fuel : Nat) (d e t : Int),
    slotsFrom (d * 1440 + e) fuel (d * 1440 + t) = slotsFrom e fuel t
  | 0, _, _, _ => rfl
  | fuel + 1, d, e, t => by
    simp only [slotsFrom]
    by_cases hle : t + 30 ≤ e
    · rw [if_pos (show d * 1440 + t + 30 ≤ d * 1440 + e by omega), if_pos hle]
      have h2 : d * 1440 + t + 30 = d * 1440 + (t + 30) := by ring
      have h3 : d * 1440 + t + 15 = d * 1440 + (t + 15) := by ring
      rw [h2, h3, fmtTime_shift, fmtTime_shift, slotsFrom_shift fuel d e (t + 15)]
    · rw [if_neg (show ¬(d * 1440 + t + 30 ≤ d * 1440 + e) by omega), if_neg hle]

theorem slots_map_shift (d : Int) (gaps : List (Int × Int)) :
    find_30_min_slots (gaps.map (shiftG (d * 1440))) = find_30_min_slots gaps := by
  unfold find_30_min_slots
  rw [List.map_map]
  have hfun : ((fun g => slotsFrom g.2 ((g.2 - g.1).toNat + 1) g.1) ∘ shiftG (d * 1440)) =
      fun g : Int × Int => slotsFrom g.2 ((g.2 - g.1).toNat + 1) g.1 := by
    funext g
    simp only [Function.comp, shiftG]
    have h1 : d * 1440 + g.2 - (d * 1440 + g.1) = g.2 - g.1 := by ring
    rw [h1]
    exact slotsFrom_shift _ d g.2 g.1
  rw [hfun]

theorem betweenGaps_shift (c : Int) :
    ∀ (l : List (Int × Int)), betweenGaps (l.map (shiftG c)) = (betweenGaps l).map (shiftG c)
  | [] => rfl
  | [_] => rfl
  | iv :: iv2 :: rest => by
    have ih := betweenGaps_shift c (iv2 :: rest)
    simp only [List.map_cons] at ih ⊢
    simp only [betweenGaps, List.map_append, ih]
    congr 1
    by_cases hlt : iv2.1 > iv.2
    · rw [if_pos hlt, if_pos (show (shiftG c iv2).1 > (shiftG c iv).2 by simp [shiftG]; omega)]
      simp [shiftG]
    · rw [if_neg hlt, if_neg (show ¬((shiftG c iv2).1 > (shiftG c iv).2) by simp [shiftG]; omega)]
      simp

theorem lastEnd_shift (c : Int) :
    ∀ (iv : Int × Int) (rest : List (Int × Int)),
      lastEnd (shiftG c iv) (rest.map (shiftG c)) = c + lastEnd iv rest
  | _, [] => rfl
  | _, iv2 :: rest => lastEnd_shift c iv2 rest

theorem find_gaps_shift (d ws we : Int) :
    ∀ (l : List (Int × Int)),
      find_gaps d (l.map (shiftG (d * 1440))) ws we =
        (find_gaps 0 l ws we).map (shiftG (d * 1440))
  | [] => by
    simp [find_gaps, shiftG]
  | iv :: rest => by
    have hbet : betweenGaps (shiftG (d * 1440) iv :: rest.map (shiftG (d * 1440))) =
        (betweenGaps (iv :: rest)).map (shiftG (d * 1440)) := by
      simpa [List.map_cons] using betweenGaps_shift (d * 1440) (iv :: rest)
    simp only [List.map_cons, find_gaps, List.map_append, hbet, lastEnd_shift]
    congr 1
    · by_cases h1 : iv.1 > 0 * 1440 + ws * 60
      · rw [if_pos h1,
          if_pos (show (shiftG (d * 1440) iv).1 > d * 1440 + ws * 60 by simp [shiftG]; omega)]
        simp [shiftG, Prod.ext_iff]
      · rw [if_neg h1,
          if_neg (show ¬((shiftG (d * 1440) iv).1 > d * 1440 + ws * 60) by simp [shiftG]; omega)]
        simp
    · by_cases h2 : lastEnd iv rest < 0 * 1440 + we * 60
      · rw [if_pos h2,
          if_pos (show d * 1440 + lastEnd iv rest < d * 1440 + we * 60 by omega)]
        simp [shiftG, Prod.ext_iff]
      · rw [if_neg h2,
          if_neg (show ¬(d * 1440 + lastEnd iv rest < d * 1440 + we * 60) by omega)]
        simp

theorem insertByStart_shift (c : Int) (x : Int × Int) :
    ∀ (l : List (Int × Int)),
      insertByStart (shiftG c x) (l.map (shiftG c)) = (insertByStart x l).map (shiftG c)
  | [] => rfl
  | y :: ys => by
    simp only [List.map_cons, insertByStart]
    by_cases hle : x.1 ≤ y.1
    · rw [if_pos hle, if_pos (show (shiftG c x).1 ≤ (shiftG c y).1 by simp [shiftG]; omega)]
      simp [List.map_cons]
    · rw [if_neg hle, if_neg (show ¬((shiftG c x).1 ≤ (shiftG c y).1) by simp [shiftG]; omega)]
      simp only [List.map_cons, insertByStart_shift c x ys]

theorem sortByStart_shift (c : Int) :
    ∀ (l : List (Int × Int)), sortByStart (l.map (shiftG c)) = (sortByStart l).map (shiftG c)
  | [] => rfl
  | x :: xs => by
    simp only [List.map_cons, sortByStart, sortByStart_shift c xs, insertByStart_shift]

theorem map_shiftIv_decomp (d : Int) (l : List (Nat × Nat)) :
    l.map (shiftIv d) = (l.map (shiftIv 0)).map (shiftG (d * 1440)) := by
  rw [List.map_map]
  have hfun : shiftG (d * 1440) ∘ shiftIv 0 = shiftIv d := by
    funext iv
    simp [Function.comp, shiftIv, shiftG, Prod.ext_iff]
  rw [hfun]

theorem find_available_slots_shift (d : Int) (text : String) :
    find_available_slots d text = find_available_slots 0 text := by
  unfold find_available_slots extract_events
  cases h : extractLines (splitLinesAux text.data []) with
  | exn => rfl
  | ok l =>
    simp only
    have he : sortByStart (l.map (shiftIv d)) =
        (sortByStart (l.map (shiftIv 0))).map (shiftG (d * 1440)) := by
      rw [map_shiftIv_decomp, sortByStart_shift]
    rw [he, find_gaps_shift, slots_map_shift]
    simp [List.length_map]


/-- C1 counterexample: a line that begins with the bullet character but
also carries an event title and a fully parseable time range is skipped by
extract_events and yields no busy interval (the source skips every line
that starts with a bullet, not just bullet-only lines), although the same
line without the bullet yields one. -/
theorem c1_counterexample :
    searchPat (pyStripL "• Standup 2:30 PM - 3:30 PM".data) =
      some ("2:30 PM".data, "3:30 PM".data) ∧
    extract_events 0 "• Standup 2:30 PM - 3:30 PM" = .ok [] ∧
    extract_events 0 "Standup 2:30 PM - 3:30 PM" = .ok [(870, 930)] := by
  refine ⟨by decide, by decide, by decide⟩

/-- C1 (amended): for every line of the input that is not blank after
stripping, does not start with a bullet character, does not contain the
"No events found" sentinel, and contains a recognizable start - end time
range whose two sides both parse, a busy interval is emitted by
processLine and, anchored to the ambient date, is a member of the
extract_events output. -/
theorem c1_theorem (line t1 t2 : List Char) (s e : Nat)
    (hskip : skipLine (pyStripL line) = false)
    (hpat : searchPat (pyStripL line) = some (t1, t2))
    (hs : parse_time_core t1 = .ok (some s))
    (he : parse_time_core t2 = .ok (some e)) :
    processLine line = .ok (some (s, if e ≤ s then e + 1440 else e)) ∧
    ∀ (d : Int) (text : String) (evs : List (Int × Int)),
      extract_events d text = .ok evs → line ∈ splitLinesAux text.data [] →
      ((d * 1440 + s : Int), (d * 1440 + (if e ≤ s then e + 1440 else e) : Int)) ∈ evs := by
  have hpl : processLine line = .ok (some (s, if e ≤ s then e + 1440 else e)) := by
    simp [processLine, hskip, hpat, hs, he]
  refine ⟨hpl, ?_⟩
  intro d text evs hex hmem
  unfold extract_events at hex
  cases hel : extractLines (splitLinesAux text.data []) with
  | exn => rw [hel] at hex; exact absurd hex (by simp)
  | ok l0 =>
    rw [hel] at hex
    obtain rfl : sortByStart (l0.map (shiftIv d)) = evs := by cases hex; rfl
    have hmem2 := extractLines_mem _ _ _ _ hel hmem hpl
    rw [mem_sortByStart]
    exact List.mem_map.mpr ⟨_, hmem2, rfl⟩

/-- C1 witness: the plain line yields the 2:30 PM to 3:30 PM busy interval
and that interval is in the extractor output for the one-line text. -/
theorem c1_witness :
    processLine "Standup 2:30 PM - 3:30 PM".data = .ok (some (870, 930)) ∧
    ((870 : Int), (930 : Int)) ∈ [((870 : Int), (930 : Int))] := by
  have h := c1_theorem "Standup 2:30 PM - 3:30 PM".data "2:30 PM".data "3:30 PM".data 870 930
    (by decide) (by decide) (by decide) (by decide)
  refine ⟨by simpa using h.1, ?_⟩
  have h2 := h.2 0 "Standup 2:30 PM - 3:30 PM" [((870 : Int), (930 : Int))]
    (by decide) (by decide)
  simpa using h2

/-- C2 counterexample: with work window 9 to 18 and no events, the first
slot string produced is "09:00 AM - 09:30 AM" (strftime %I zero-pads the
hour), which is not the claimed "9:00 AM - 9:30 AM". -/
theorem c2_counterexample :
    (find_30_min_slots (find_gaps 0 [] 9 18)).head? = some "09:00 AM - 09:30 AM" ∧
    ("09:00 AM - 09:30 AM" : String) ≠ "9:00 AM - 9:30 AM" := by
  refine ⟨by decide, by decide⟩

/-- C2 (amended): with work window 9 to 18 and no events, on any ambient
date, the slot list is exactly the three strings starting with
"09:00 AM - 09:30 AM"; the hour field is zero-padded. -/
theorem c2_theorem (d : Int) :
    find_30_min_slots (find_gaps d [] 9 18) =
      ["09:00 AM - 09:30 AM", "09:15 AM - 09:45 AM", "09:30 AM - 10:00 AM"] := by
  have h0 := find_gaps_shift d 9 18 []
  simp only [List.map_nil] at h0
  rw [h0, slots_map_shift]
  decide

/-- C3 (code_bug): the spec requires the Time Parser to return failure
rather than crash and the extractor to skip malformed lines, but on the
token "9:75 PM" the numeric fallback extracts hour 9 and minute 75,
adjusts the hour to 21 for PM, and the datetime.time.replace call raises
ValueError because minute 75 is out of range, so the whole extraction of
"9:75 PM - 10:00 PM" aborts instead of skipping the line. -/
theorem c3_theorem :
    parse_time_core "9:75 PM".data = .exn ∧
    extract_events 0 "9:75 PM - 10:00 PM" = .exn := by
  refine ⟨by decide, by decide⟩

/-- C4 counterexample: for the busy interval 7:00 to 8:00, which ends
before the 9:00 work start, find_gaps emits the gap from 8:00 to 18:00,
whose start lies strictly before the work window start, refuting the claim
for events outside the window. -/
theorem c4_counterexample :
    find_gaps 0 [(420, 480)] 9 18 = [(480, 1080)] ∧ (480 : Int) < 0 * 1440 + 9 * 60 := by
  refine ⟨by decide, by decide⟩

/-- C4 (amended): when every busy interval is well-formed and contained in
the work window, every gap returned by find_gaps lies inside the work
window. -/
theorem c4_theorem (d ws we : Int) (evs : List (Int × Int))
    (hin : ∀ iv ∈ evs,
      d * 1440 + ws * 60 ≤ iv.1 ∧ iv.1 ≤ iv.2 ∧ iv.2 ≤ d * 1440 + we * 60)
    (g : Int × Int) (hg : g ∈ find_gaps d evs ws we) :
    d * 1440 + ws * 60 ≤ g.1 ∧ g.2 ≤ d * 1440 + we * 60 := by
  cases evs with
  | nil =>
    simp only [find_gaps, List.mem_singleton] at hg
    subst hg
    exact ⟨le_refl _, le_refl _⟩
  | cons iv rest =>
    unfold find_gaps at hg
    rw [List.mem_append, List.mem_append] at hg
    rcases hg with (h1 | h2) | h3
    · by_cases hc : iv.1 > d * 1440 + ws * 60
      · rw [if_pos hc, List.mem_singleton] at h1
        subst h1
        obtain ⟨ha, hb, hc2⟩ := hin iv (List.mem_cons_self _ _)
        exact ⟨le_refl _, by dsimp only; omega⟩
      · rw [if_neg hc] at h1
        exact absurd h1 (List.not_mem_nil _)
    · obtain ⟨a, ha, b, hb, rfl⟩ := mem_betweenGaps _ _ h2
      obtain ⟨ha1, ha2, ha3⟩ := hin a ha
      obtain ⟨hb1, hb2, hb3⟩ := hin b hb
      exact ⟨by dsimp only; omega, by dsimp only; omega⟩
    · by_cases hc : lastEnd iv rest < d * 1440 + we * 60
      · rw [if_pos hc, List.mem_singleton] at h3
        subst h3
        obtain ⟨b, hbmem, hbe⟩ := lastEnd_mem iv rest
        obtain ⟨hb1, hb2, hb3⟩ := hin b hbmem
        exact ⟨by dsimp only; omega, le_refl _⟩
      · rw [if_neg hc] at h3
        exact absurd h3 (List.not_mem_nil _)

/-- C4 witness: for the in-window event 10:00 to 11:00 the gap from 9:00
to 10:00 is returned and lies inside the window. -/
theorem c4_witness :
    (0 : Int) * 1440 + 9 * 60 ≤ 540 ∧ (600 : Int) ≤ 0 * 1440 + 18 * 60 := by
  have h := c4_theorem 0 9 18 [(600, 660)] (by decide) (540, 600) (by decide)
  simpa using h

/-- C5 counterexample: the single busy interval 7:00 to 8:00 is pairwise
non-overlapping, yet the gap durations plus the busy duration total 660
minutes while the 9-to-18 work window lasts 540 minutes, refuting the
claim when intervals lie outside the window. -/
theorem c5_counterexample :
    sumDur (find_gaps 0 [(420, 480)] 9 18) + sumDur [(420, 480)] = 660 ∧
    (18 : Int) * 60 - 9 * 60 = 540 ∧ (660 : Int) ≠ 540 := by
  refine ⟨by decide, by decide, by decide⟩

/-- C5 (amended): for every list of busy intervals that is sorted,
pairwise separated and contained in the work window (the chainWithin
condition), the sum of gap durations plus the sum of busy durations equals
the work window duration. -/
theorem c5_theorem (d ws we : Int) (evs : List (Int × Int))
    (h : chainWithin (d * 1440 + ws * 60) (d * 1440 + we * 60) evs = true) :
    sumDur (find_gaps d evs ws we) + sumDur evs = we * 60 - ws * 60 := by
  cases evs with
  | nil =>
    have hle : d * 1440 + ws * 60 ≤ d * 1440 + we * 60 := by
      simpa [chainWithin] using h
    simp only [find_gaps, sumDur]
    omega
  | cons iv rest =>
    have hch : d * 1440 + ws * 60 ≤ iv.1 ∧
        chainWithin iv.2 (d * 1440 + we * 60) rest = true := by
      simpa [chainWithin] using h
    have haux := sumDur_tail_gaps rest iv (d * 1440 + we * 60) hch.2
    simp only [find_gaps, sumDur_append, sumDur]
    by_cases hl : iv.1 > d * 1440 + ws * 60
    · rw [if_pos hl]
      simp only [sumDur]
      omega
    · rw [if_neg hl]
      simp only [sumDur]
      omega

/-- C5 witness: one in-window event 10:00 to 11:00 in the 9-to-18 window
satisfies the chain condition and the durations add up to the window. -/
theorem c5_witness :
    sumDur (find_gaps 0 [(600, 660)] 9 18) + sumDur [(600, 660)] = 18 * 60 - 9 * 60 :=
  c5_theorem 0 9 18 [(600, 660)] (by decide)

/-- C6 (code_bug): with the degenerate work window from hour 18 to hour 9
and no events, find_gaps performs no validation and silently returns the
degenerate window itself as a single gap of negative duration, instead of
reporting a configuration error as the spec requires. -/
theorem c6_theorem :
    find_gaps 0 [] 18 9 = [(1080, 540)] ∧ (540 : Int) - 1080 < 0 := by
  refine ⟨by decide, by decide⟩

/-- C7 counterexample: the token "14:30 PM" reaches the numeric fallback
with hour 14 and a PM substring; the fallback adds 12 because the hour is
not exactly 12, producing 26, and the parse then raises instead of
yielding hour 14 as the claim states. -/
theorem c7_counterexample :
    searchHM "14:30 PM".data = some (14, 30) ∧
    fallbackAdjust "14:30 PM".data 14 = 26 ∧
    parse_time_core "14:30 PM".data = .exn := by
  refine ⟨by decide, by decide, by decide⟩

/-- C7 (amended): in the numeric fallback, an AM substring with hour 12
gives 0; a PM substring with hour 12 and no AM substring leaves 12; and a
PM substring adds 12 whenever the hour differs from 12, even when the
hour is already at least 13 (so hour 14 with PM becomes 26, which is out
of range for the subsequent time construction). -/
theorem c7_theorem (t : List Char) (h : Nat) :
    (containsSub ['A', 'M'] (t.map upChar) = true → h = 12 →
      fallbackAdjust t h = 0) ∧
    (containsSub ['P', 'M'] (t.map upChar) = true →
      containsSub ['A', 'M'] (t.map upChar) = false → h = 12 →
      fallbackAdjust t h = 12) ∧
    (containsSub ['P', 'M'] (t.map upChar) = true → h ≠ 12 →
      fallbackAdjust t h = h + 12) := by
  refine ⟨?_, ?_, ?_⟩
  · intro hAM h12
    subst h12
    simp [fallbackAdjust, hAM]
  · intro hPM hAM h12
    subst h12
    simp [fallbackAdjust, hPM, hAM]
  · intro hPM hne
    simp [fallbackAdjust, hPM, hne]

/-- C7 witness: the three fallback clauses at concrete tokens, including
hour 14 with PM mapping to 26. -/
theorem c7_witness :
    fallbackAdjust "12:00 AM".data 12 = 0 ∧
    fallbackAdjust "12:00 PM".data 12 = 12 ∧
    fallbackAdjust "14:30 PM".data 14 = 26 := by
  have h1 := c7_theorem "12:00 AM".data 12
  have h2 := c7_theorem "12:00 PM".data 12
  have h3 := c7_theorem "14:30 PM".data 14
  refine ⟨h1.1 (by decide) rfl, h2.2.1 (by decide) (by decide) rfl, ?_⟩
  simpa using h3.2.2 (by decide) (by decide)

/-- C8 counterexample: the event "11:30 PM - 12:30 AM" is normalized to
the next-day-spanning interval 23:30 to 24:30 and is NOT discarded: it
participates in the gap computation, suppresses the trailing gap of the
9-to-18 window and induces a single gap reaching 23:30. -/
theorem c8_counterexample :
    extract_events 0 "11:30 PM - 12:30 AM" = .ok [(1410, 1470)] ∧
    find_gaps 0 [(1410, 1470)] 9 18 = [(540, 1410)] := by
  refine ⟨by decide, by decide⟩

/-- C8 (amended): when a parsed end is not strictly after the start, 24
hours are added to the end and the resulting interval is kept: processLine
emits it like any other interval, so it participates in the same-day gap
computation. -/
theorem c8_theorem (line t1 t2 : List Char) (s e : Nat)
    (hskip : skipLine (pyStripL line) = false)
    (hpat : searchPat (pyStripL line) = some (t1, t2))
    (hs : parse_time_core t1 = .ok (some s))
    (he : parse_time_core t2 = .ok (some e))
    (hle : e ≤ s) :
    processLine line = .ok (some (s, e + 1440)) := by
  simp [processLine, hskip, hpat, hs, he, hle]

/-- C8 witness: the line "11:30 PM - 12:30 AM" yields the interval from
23:30 to next-day 0:30. -/
theorem c8_witness :
    processLine "11:30 PM - 12:30 AM".data = .ok (some (1410, 1470)) := by
  have h := c8_theorem "11:30 PM - 12:30 AM".data "11:30 PM".data "12:30 AM".data 1410 30
    (by decide) (by decide) (by decide) (by decide) (by decide)
  simpa using h

/-- C9 (confirmed): the pipeline output is identical for runs anchored to
any two ambient dates, so identical raw event text yields identical output
regardless of the wall-clock date of the run; the output message depends
only on the time-of-day content of the input. -/
theorem c9_theorem (d1 d2 : Int) (text : String) :
    find_available_slots d1 text = find_available_slots d2 text := by
  rw [find_available_slots_shift d1 text, find_available_slots_shift d2 text]

/-- C10 (confirmed): every line containing the exact substring
"No events found" anywhere is dropped by processLine before time-range
matching and contributes no busy interval, even when the line also carries
a parseable time range. -/
theorem c10_theorem (line : List Char) (h : containsSub sentinel line = true) :
    processLine line = .ok none := by
  have h2 : containsSub sentinel (pyStripL line) = true := containsSub_pyStripL line h
  have h3 : skipLine (pyStripL line) = true := by
    simp [skipLine, h2]
  simp [processLine, h3]

/-- C10 witness: a line containing both the sentinel and a parseable time
range is dropped although the range would match. -/
theorem c10_witness :
    searchPat (pyStripL "No events found 2:30 PM - 3:30 PM".data) =
      some ("2:30 PM".data, "3:30 PM".data) ∧
    processLine "No events found 2:30 PM - 3:30 PM".data = .ok none := by
  refine ⟨by decide, c10_theorem _ (by decide)⟩
